import Mathlib

/-!
Verification of the Simple_Bank repository's natural-language specification
against its code. The API layer (`api/account.go`) and the currency helper
(`utils/currency.go`) are embedded directly from the source. The transfer
engine and transactional executor are not present under `src/`; they are
modelled from the spec (sections 4.1, 4.2, 5 and 6), as marked on each
definition.
-/

namespace Utils

/-- Currency constant from `utils/currency.go`. -/
def USD : String := "USD"

/-- Currency constant from `utils/currency.go`. -/
def EUR : String := "EUR"

/-- Currency constant from `utils/currency.go`. -/
def CAD : String := "CAD"

/-- Embedding of `IsCurrencySupported` from `utils/currency.go`: a switch on
the currency string returning true for the three supported constants. -/
def IsCurrencySupported (currency : String) : Bool :=
  if currency == USD || currency == EUR || currency == CAD then true
  else false

end Utils

namespace Api

/-- Account record as returned by the store (`db.Account`). -/
structure Account where
  id : Int
  owner : String
  currency : String
  balance : Int
  deriving DecidableEq, Repr

/-- Errors a store call can report, as distinguished by the API layer in
`api/account.go`: `sql.ErrNoRows`, a `pq.Error` with a code name, or any
other error. -/
inductive StoreError where
  | sqlErrNoRows
  | pqError (codeName : String)
  | other
  deriving DecidableEq, Repr

/-- An HTTP response of the account handlers: status code, and the account
payload when one is returned. -/
structure ApiResponse where
  status : Nat
  account : Option Account
  deriving DecidableEq, Repr

/-- Parameters `db.CreateAccountParams` as constructed in `createAccount`. -/
structure CreateAccountParams where
  owner : String
  currency : String
  balance : Int
  deriving DecidableEq, Repr

/-- Parameters `db.ListAccountsParams` as constructed in `listAccounts`. -/
structure ListAccountsParams where
  owner : String
  limit : Int
  offset : Int
  deriving DecidableEq, Repr

/-- Embedding of `(*Server).createAccount` from `api/account.go`.
`bindResult` is the outcome of `ShouldBindJSON` (the bound currency on
success), `authUsername` the authenticated user's name from the auth
payload, and `store` the `CreateAccount` store call. A pq error whose code
name is `foreign_key_violation` or `unique_violation` yields 403; any other
store error yields 500. -/
def createAccount (bindResult : Option String) (authUsername : String)
    (store : CreateAccountParams → Except StoreError Account) : ApiResponse :=
  match bindResult with
  | none => ⟨400, none⟩
  | some currency =>
    match store ⟨authUsername, currency, 0⟩ with
    | Except.error e =>
      match e with
      | StoreError.pqError codeName =>
        if codeName = "foreign_key_violation" ∨ codeName = "unique_violation" then
          ⟨403, none⟩
        else ⟨500, none⟩
      | _ => ⟨500, none⟩
    | Except.ok account => ⟨200, some account⟩

/-- Embedding of `(*Server).getAccount` from `api/account.go`.
`bindOk` is the outcome of `ShouldBindUri`, `storeResult` the outcome of
`store.GetAccount`, and `authUsername` the authenticated user's name.
`sql.ErrNoRows` yields 404, any other store error 500; an account owned by
someone other than the authenticated user yields 400 without the account. -/
def getAccount (bindOk : Bool) (storeResult : Except StoreError Account)
    (authUsername : String) : ApiResponse :=
  if !bindOk then ⟨400, none⟩
  else
    match storeResult with
    | Except.error e =>
      if e = StoreError.sqlErrNoRows then ⟨404, none⟩
      else ⟨500, none⟩
    | Except.ok account =>
      if account.owner ≠ authUsername then ⟨400, none⟩
      else ⟨200, some account⟩

/-- A response of `listAccounts`: status code and the listed accounts when
they are returned. -/
structure ListResponse where
  status : Nat
  accounts : Option (List Account)
  deriving DecidableEq, Repr

/-- Embedding of `(*Server).listAccounts` from `api/account.go`.
`bindResult` is the outcome of `ShouldBindQuery` (page id and page size on
success); the store is queried with `Owner` set to the authenticated
username, `Limit` to the page size and `Offset` to `(pageID-1)*pageSize`. -/
def listAccounts (bindResult : Option (Int × Int)) (authUsername : String)
    (store : ListAccountsParams → Except StoreError (List Account)) : ListResponse :=
  match bindResult with
  | none => ⟨400, none⟩
  | some (pageID, pageSize) =>
    match store ⟨authUsername, pageSize, (pageID - 1) * pageSize⟩ with
    | Except.error _ => ⟨500, none⟩
    | Except.ok accounts => ⟨200, some accounts⟩

end Api

namespace Engine

/-- Modelled from the spec: Entry (section 3) — owning account identifier and
signed amount delta (positive for credit, negative for debit). The identifier
and creation timestamp play no role in the claims and are omitted. -/
structure Entry where
  accountID : Int
  amount : Int
  deriving DecidableEq, Repr

/-- Modelled from the spec: Transfer (section 3) — source account identifier,
destination account identifier, positive amount. -/
structure Transfer where
  fromAccountID : Int
  toAccountID : Int
  amount : Int
  deriving DecidableEq, Repr

/-- Modelled from the spec: the Ledger Store's durable state (section 2):
accounts, entries and transfer records. The `log` field records, in issue
order, every balance update (account identifier, signed delta) the store has
executed; it makes the lock/update order of section 4.2 step 4 observable. -/
structure Ledger where
  accounts : List Api.Account
  entries : List Entry
  transfers : List Transfer
  log : List (Int × Int)
  deriving DecidableEq, Repr

/-- Modelled from the spec: error kinds of section 7. `combined` is the
TransactionFailure case in which the rollback itself also failed and both
errors are reported together as a single combined error. -/
inductive EngineError where
  | notFound
  | constraintViolation
  | storeUnavailable
  | combined (original : EngineError) (rollbackError : EngineError)
  deriving DecidableEq, Repr

/-- Balance of the account with the given identifier, `none` when no such
account exists in the store. -/
def getBalance (s : Ledger) (id : Int) : Option Int :=
  (s.accounts.find? (fun a => a.id == id)).map (fun a => a.balance)

/-- Modelled from the spec: `CreateTransfer(source, destination, amount) ->
Transfer` (section 6) — inserts a new Transfer record. -/
def createTransfer (s : Ledger) (fromID toID amount : Int) : Transfer × Ledger :=
  (⟨fromID, toID, amount⟩, { s with transfers := s.transfers ++ [⟨fromID, toID, amount⟩] })

/-- Modelled from the spec: `CreateEntry(accountID, amount) -> Entry`
(section 6) — inserts a new Entry record. -/
def createEntry (s : Ledger) (accountID amount : Int) : Entry × Ledger :=
  (⟨accountID, amount⟩, { s with entries := s.entries ++ [⟨accountID, amount⟩] })

/-- Modelled from the spec: `UpdateAccountBalance(accountID, delta) ->
Account` (sections 4.2 and 6) — atomically read-modify-write the balance of
the given account and return the new account state; `NotFound` when the
account does not exist. The update is also appended to the store's log. -/
def updateAccountBalance (s : Ledger) (id delta : Int) :
    Except EngineError (Api.Account × Ledger) :=
  match s.accounts.find? (fun a => a.id == id) with
  | none => Except.error EngineError.notFound
  | some a =>
    let a' : Api.Account := { a with balance := a.balance + delta }
    Except.ok (a',
      { s with
        accounts := s.accounts.map (fun b => if b.id == id then a' else b),
        log := s.log ++ [(id, delta)] })

/-- Modelled from the spec: the Transactional Executor (section 4.1) —
`ExecuteTransaction(unitOfWork)`. Begins a transaction, runs the unit of
work against the store, commits and returns the unit's result on success;
on failure rolls back (no partial state remains observable) and surfaces
the original error, combined with the rollback error when the rollback
itself also fails (`rollbackFault`). -/
def execTx {α : Type} (s : Ledger) (rollbackFault : Option EngineError)
    (unit : Ledger → Except EngineError (α × Ledger)) :
    Except EngineError α × Ledger :=
  match unit s with
  | Except.ok p => (Except.ok p.1, p.2)
  | Except.error e =>
    match rollbackFault with
    | none => (Except.error e, s)
    | some rbErr => (Except.error (EngineError.combined e rbErr), s)

/-- Modelled from the spec: TransferResult (section 3) — the created
Transfer, the two Entries, and the two post-update Accounts. -/
structure TransferTxResult where
  transfer : Transfer
  fromEntry : Entry
  toEntry : Entry
  fromAccount : Api.Account
  toAccount : Api.Account
  deriving DecidableEq, Repr

/-- The individual store writes of a transfer, used to inject a store
failure at any chosen step (section 4.2's failure semantics). -/
inductive TxStep where
  | createTransferStep
  | createFromEntry
  | createToEntry
  | updateFirst
  | updateSecond
  deriving DecidableEq, Repr

/-- Modelled from the spec: section 4.2 step 4 — the two balance updates
(account identifier, signed delta), issued in a fixed deterministic order:
ascending account identifier, regardless of transfer direction. -/
def balanceUpdates (fromID toID amount : Int) : (Int × Int) × (Int × Int) :=
  if fromID < toID then ((fromID, -amount), (toID, amount))
  else ((toID, amount), (fromID, -amount))

/-- Modelled from the spec: applies the two balance updates of a transfer in
the given order, returning the two post-update accounts in that order. A
`fault` of `updateFirst` or `updateSecond` makes the corresponding store
write fail. -/
def applyTwoUpdates (fault : Option TxStep) (s : Ledger) (u1 u2 : Int × Int) :
    Except EngineError ((Api.Account × Api.Account) × Ledger) :=
  if fault = some TxStep.updateFirst then Except.error EngineError.storeUnavailable
  else
    match updateAccountBalance s u1.1 u1.2 with
    | Except.error e => Except.error e
    | Except.ok p1 =>
      if fault = some TxStep.updateSecond then Except.error EngineError.storeUnavailable
      else
        match updateAccountBalance p1.2 u2.1 u2.2 with
        | Except.error e => Except.error e
        | Except.ok p2 => Except.ok ((p1.1, p2.1), p2.2)

/-- Modelled from the spec: the Transfer Engine's unit of work (section 4.2
steps 1-5): insert the Transfer record, the debit Entry for the source
(amount = -amount), the credit Entry for the destination (amount =
+amount), update both balances in ascending account-identifier order, and
return the Transfer, both Entries and both post-update Accounts. A
`fault` makes the corresponding store write fail. -/
def transferTxUnit (fault : Option TxStep) (fromID toID amount : Int)
    (s : Ledger) : Except EngineError (TransferTxResult × Ledger) :=
  if fault = some TxStep.createTransferStep then Except.error EngineError.storeUnavailable
  else
    let p1 := createTransfer s fromID toID amount
    if fault = some TxStep.createFromEntry then Except.error EngineError.storeUnavailable
    else
      let p2 := createEntry p1.2 fromID (-amount)
      if fault = some TxStep.createToEntry then Except.error EngineError.storeUnavailable
      else
        let p3 := createEntry p2.2 toID amount
        let u := balanceUpdates fromID toID amount
        match applyTwoUpdates fault p3.2 u.1 u.2 with
        | Except.error e => Except.error e
        | Except.ok pr =>
          Except.ok
            ({ transfer := p1.1, fromEntry := p2.1, toEntry := p3.1,
               fromAccount := if fromID < toID then pr.1.1 else pr.1.2,
               toAccount := if fromID < toID then pr.1.2 else pr.1.1 }, pr.2)

/-- Modelled from the spec: the public operation
`Transfer(sourceAccountID, destinationAccountID, amount)` (section 4.2),
executed entirely inside one Transactional Executor invocation. -/
def transferTx (fault : Option TxStep) (rollbackFault : Option EngineError)
    (s : Ledger) (fromID toID amount : Int) :
    Except EngineError TransferTxResult × Ledger :=
  execTx s rollbackFault (transferTxUnit fault fromID toID amount)

/-- Concrete two-account ledger used by the witnesses: the spec's section 8
scenario with account 1 at balance 100 and account 2 at balance 50. -/
def sampleLedger : Ledger :=
  { accounts := [⟨1, "alice", "USD", 100⟩, ⟨2, "bob", "USD", 50⟩],
    entries := [], transfers := [], log := [] }

/-- Result of transferring 30 from account 1 to account 2 in
`sampleLedger`. -/
def sampleResult : TransferTxResult :=
  { transfer := ⟨1, 2, 30⟩, fromEntry := ⟨1, -30⟩, toEntry := ⟨2, 30⟩,
    fromAccount := ⟨1, "alice", "USD", 70⟩, toAccount := ⟨2, "bob", "USD", 80⟩ }

/-- Store state after transferring 30 from account 1 to account 2 in
`sampleLedger`. -/
def sampleLedgerAfter : Ledger :=
  { accounts := [⟨1, "alice", "USD", 70⟩, ⟨2, "bob", "USD", 80⟩],
    entries := [⟨1, -30⟩, ⟨2, 30⟩], transfers := [⟨1, 2, 30⟩],
    log := [(1, -30), (2, 30)] }

/-- Ledger on which a transfer overdraws its source account: account 1
holds balance 5 only. -/
def overdraftLedger : Ledger :=
  { accounts := [⟨1, "alice", "USD", 5⟩, ⟨2, "bob", "USD", 0⟩],
    entries := [], transfers := [], log := [] }

end Engine

namespace Concurrent

/-- Modelled from the spec: a transfer between the two fixed accounts A
and B of section 5's scenario, given by its direction (`aToB` true for
A→B) and its positive amount. -/
structure Tx where
  aToB : Bool
  amount : Int
  deriving DecidableEq, Repr

/-- Signed delta the transfer applies to account A's balance. -/
def deltaA (t : Tx) : Int := if t.aToB then -t.amount else t.amount

/-- Signed delta the transfer applies to account B's balance. -/
def deltaB (t : Tx) : Int := if t.aToB then t.amount else -t.amount

/-- Modelled from the spec (section 5): a configuration of N concurrent
transfer transactions over the two account rows A and B, where A is the
account with the smaller identifier. `pcs` holds each transaction's
progress: 0 = not started, 1 = holds the row lock on A and has applied its
A-delta, 2 = holds both row locks and has applied both deltas, 3 =
committed (both locks released). `lockA` and `lockB` hold the index of the
transaction currently holding the row lock, if any. -/
structure Config where
  balA : Int
  balB : Int
  pcs : List Nat
  lockA : Option Nat
  lockB : Option Nat
  deriving DecidableEq, Repr

/-- Initial configuration: balances `a0` and `b0`, no transaction started,
both row locks free. -/
def initConfig (n : Nat) (a0 b0 : Int) : Config :=
  ⟨a0, b0, List.replicate n 0, none, none⟩

/-- Modelled from the spec (sections 4.2 and 5): one interleaved execution
step. Every transaction acquires the two row locks in the same global
order — first A, then B, i.e. ascending account identifier, regardless of
its transfer direction — applies its balance delta while taking each lock
(the store's atomic read-modify-write), and releases both locks when it
commits. A lock can only be taken while free; a transaction whose next
lock is held blocks. -/
inductive Step (txs : List Tx) : Config → Config → Prop where
  | lockFirst (c : Config) (i : Nat) (hi : i < c.pcs.length)
      (hpc : c.pcs.getD i 0 = 0) (hfree : c.lockA = none) :
      Step txs c
        { balA := c.balA + deltaA (txs.getD i ⟨true, 0⟩), balB := c.balB,
          pcs := c.pcs.set i 1, lockA := some i, lockB := c.lockB }
  | lockSecond (c : Config) (i : Nat) (hi : i < c.pcs.length)
      (hpc : c.pcs.getD i 0 = 1) (hheld : c.lockA = some i)
      (hfree : c.lockB = none) :
      Step txs c
        { balA := c.balA, balB := c.balB + deltaB (txs.getD i ⟨true, 0⟩),
          pcs := c.pcs.set i 2, lockA := c.lockA, lockB := some i }
  | commit (c : Config) (i : Nat) (hi : i < c.pcs.length)
      (hpc : c.pcs.getD i 0 = 2) (hheldA : c.lockA = some i)
      (hheldB : c.lockB = some i) :
      Step txs c
        { balA := c.balA, balB := c.balB,
          pcs := c.pcs.set i 3, lockA := none, lockB := none }

/-- Every transaction has committed. -/
def allDone (c : Config) : Prop := ∀ p ∈ c.pcs, p = 3

instance (c : Config) : Decidable (allDone c) := by
  unfold allDone
  infer_instance

/-- Net effect of a list of transfers under a per-transfer delta. -/
def total (f : Tx → Int) : List Tx → Int
  | [] => 0
  | t :: ts => f t + total f ts

/-- Sum of the deltas of the transactions whose progress counter has
reached `k`: the part of the net effect already applied to a balance. -/
def appliedSum (f : Tx → Int) (k : Nat) : List Nat → List Tx → Int
  | pc :: pcs, t :: ts => (if k ≤ pc then f t else 0) + appliedSum f k pcs ts
  | _, _ => 0

/-- Sum of all progress counters, the termination measure. -/
def pcsSum : List Nat → Nat
  | [] => 0
  | p :: ps => p + pcsSum ps

/-- Invariant tying a configuration to the transfer list and the initial
balances: progress counters are in range, each held lock is held by
exactly the transaction whose progress says so, and each balance equals
its initial value plus the deltas already applied. -/
structure Inv (txs : List Tx) (a0 b0 : Int) (c : Config) : Prop where
  len : c.pcs.length = txs.length
  pcLe : ∀ p ∈ c.pcs, p ≤ 3
  lockA_some : ∀ i, c.lockA = some i →
    i < c.pcs.length ∧ (c.pcs.getD i 0 = 1 ∨ c.pcs.getD i 0 = 2)
  lockA_unique : ∀ i, i < c.pcs.length →
    (c.pcs.getD i 0 = 1 ∨ c.pcs.getD i 0 = 2) → c.lockA = some i
  lockB_some : ∀ i, c.lockB = some i →
    i < c.pcs.length ∧ c.pcs.getD i 0 = 2
  lockB_unique : ∀ i, i < c.pcs.length → c.pcs.getD i 0 = 2 → c.lockB = some i
  balA_eq : c.balA = a0 + appliedSum deltaA 1 c.pcs txs
  balB_eq : c.balB = b0 + appliedSum deltaB 2 c.pcs txs

end Concurrent

namespace Engine

/-- A found account matches the searched identifier. -/
theorem find?_id_eq {l : List Api.Account} {id : Int} {a : Api.Account}
    (h : l.find? (fun b => b.id == id) = some a) : a.id = id := by
  have := List.find?_some h
  simpa using this

/-- Replacing the matching account by one with the same identifier makes the
search find the replacement. -/
theorem find?_map_self (l : List Api.Account) (id : Int) (a a' : Api.Account)
    (ha' : a'.id = id) (h : l.find? (fun b => b.id == id) = some a) :
    (l.map (fun b => if b.id == id then a' else b)).find? (fun b => b.id == id)
      = some a' := by
  induction l with
  | nil => simp at h
  | cons b t ih =>
    rw [List.map_cons]
    by_cases hb : b.id = id
    · rw [if_pos (by simp [hb] : (b.id == id) = true)]
      exact List.find?_cons_of_pos _ (by simp [ha'])
    · rw [if_neg (by simp [hb] : ¬ (b.id == id) = true)]
      rw [List.find?_cons_of_neg _ (by simp [hb])] at h
      rw [List.find?_cons_of_neg _ (by simp [hb])]
      exact ih h

/-- Replacing the account with identifier `id` by one with the same
identifier does not affect searches for a different identifier. -/
theorem find?_map_other (l : List Api.Account) (id id' : Int) (a' : Api.Account)
    (ha' : a'.id = id) (hne : id' ≠ id) :
    (l.map (fun b => if b.id == id then a' else b)).find? (fun b => b.id == id')
      = l.find? (fun b => b.id == id') := by
  induction l with
  | nil => simp
  | cons b t ih =>
    rw [List.map_cons]
    by_cases hb : b.id = id
    · have hb' : ¬ b.id = id' := by rw [hb]; exact fun h => hne h.symm
      have ha'' : ¬ a'.id = id' := by rw [ha']; exact fun h => hne h.symm
      rw [if_pos (by simp [hb] : (b.id == id) = true)]
      rw [List.find?_cons_of_neg _ (by simp [ha''])]
      rw [List.find?_cons_of_neg _ (by simp [hb'])]
      exact ih
    · rw [if_neg (by simp [hb] : ¬ (b.id == id) = true)]
      by_cases hb' : b.id = id'
      · rw [List.find?_cons_of_pos _ (by simp [hb'])]
        rw [List.find?_cons_of_pos _ (by simp [hb'])]
      · rw [List.find?_cons_of_neg _ (by simp [hb'])]
        rw [List.find?_cons_of_neg _ (by simp [hb'])]
        exact ih

/-- Full characterization of a successful `updateAccountBalance`: the
returned account state, the new balance of the touched account, the
unchanged balance of every other account, and the unchanged record lists. -/
theorem updateAccountBalance_ok_spec {s : Ledger} {id delta : Int}
    {a' : Api.Account} {s' : Ledger} {b : Int}
    (hb : getBalance s id = some b)
    (h : updateAccountBalance s id delta = Except.ok (a', s')) :
    a'.id = id ∧ a'.balance = b + delta ∧
    getBalance s' id = some (b + delta) ∧
    (∀ x, x ≠ id → getBalance s' x = getBalance s x) ∧
    s'.entries = s.entries ∧ s'.transfers = s.transfers ∧
    s'.log = s.log ++ [(id, delta)] := by
  unfold updateAccountBalance at h
  cases hf : s.accounts.find? (fun c => c.id == id) with
  | none =>
    rw [hf] at h
    cases h
  | some a =>
    rw [hf] at h
    simp only [Except.ok.injEq, Prod.mk.injEq] at h
    obtain ⟨ha', hs'⟩ := h
    have haid : a.id = id := find?_id_eq hf
    have hab : a.balance = b := by
      unfold getBalance at hb
      rw [hf] at hb
      simpa using hb
    subst ha' hs'
    refine ⟨haid, by simp [hab], ?_, ?_, rfl, rfl, rfl⟩
    · unfold getBalance
      simp only
      rw [find?_map_self s.accounts id a _ (by simp [haid]) hf]
      simp [hab]
    · intro x hx
      unfold getBalance
      simp only
      rw [find?_map_other s.accounts id x _ (by simp [haid]) hx]

/-- A successful `updateAccountBalance` presupposes the account exists. -/
theorem updateAccountBalance_ok_exists {s : Ledger} {id delta : Int}
    {a' : Api.Account} {s' : Ledger}
    (h : updateAccountBalance s id delta = Except.ok (a', s')) :
    ∃ b, getBalance s id = some b := by
  unfold updateAccountBalance at h
  cases hf : s.accounts.find? (fun c => c.id == id) with
  | none => rw [hf] at h; cases h
  | some a => exact ⟨a.balance, by unfold getBalance; rw [hf]; rfl⟩

/-- A successful `applyTwoUpdates` decomposes into two successful balance
updates in order. -/
theorem applyTwoUpdates_ok {fault : Option TxStep} {s : Ledger}
    {u1 u2 : Int × Int} {accs : Api.Account × Api.Account} {s'' : Ledger}
    (h : applyTwoUpdates fault s u1 u2 = Except.ok (accs, s'')) :
    ∃ sMid, updateAccountBalance s u1.1 u1.2 = Except.ok (accs.1, sMid) ∧
      updateAccountBalance sMid u2.1 u2.2 = Except.ok (accs.2, s'') := by
  unfold applyTwoUpdates at h
  split at h
  · cases h
  · split at h
    · cases h
    · rename_i p1 heq1
      split at h
      · cases h
      · split at h
        · cases h
        · rename_i p2 heq2
          injection h with h'
          injection h' with ha hb
          subst ha
          subst hb
          exact ⟨p1.2, heq1, heq2⟩

/-- A successful transfer unit of work decomposes into the three record
inserts followed by the two ordered balance updates, and returns the
created records and post-update accounts. -/
theorem transferTxUnit_ok {fault : Option TxStep} {f t a : Int} {s : Ledger}
    {res : TransferTxResult} {s4 : Ledger}
    (h : transferTxUnit fault f t a s = Except.ok (res, s4)) :
    ∃ s3 accs,
      s3.accounts = s.accounts ∧ s3.log = s.log ∧
      s3.transfers = s.transfers ++ [⟨f, t, a⟩] ∧
      s3.entries = s.entries ++ [⟨f, -a⟩, ⟨t, a⟩] ∧
      applyTwoUpdates fault s3 (balanceUpdates f t a).1 (balanceUpdates f t a).2
        = Except.ok (accs, s4) ∧
      res.transfer = ⟨f, t, a⟩ ∧ res.fromEntry = ⟨f, -a⟩ ∧ res.toEntry = ⟨t, a⟩ ∧
      res.fromAccount = (if f < t then accs.1 else accs.2) ∧
      res.toAccount = (if f < t then accs.2 else accs.1) := by
  unfold transferTxUnit createTransfer createEntry at h
  simp only at h
  split at h
  · cases h
  · split at h
    · cases h
    · split at h
      · cases h
      · split at h
        · cases h
        · rename_i pr heq
          injection h with h'
          injection h' with hres hs4
          subst hs4
          refine ⟨{ s with
              transfers := s.transfers ++ [⟨f, t, a⟩],
              entries := s.entries ++ [⟨f, -a⟩] ++ [⟨t, a⟩] }, pr.1,
            rfl, rfl, rfl, by simp, heq, ?_, ?_, ?_, ?_, ?_⟩
            <;> rw [← hres]

/-- Balances only depend on the accounts list. -/
theorem getBalance_eq_of_accounts {s s' : Ledger}
    (h : s'.accounts = s.accounts) (x : Int) :
    getBalance s' x = getBalance s x := by
  unfold getBalance
  rw [h]

/-- A successful `transferTx` reduces to a successful unit of work. -/
theorem transferTx_ok_unit {fault : Option TxStep} {rb : Option EngineError}
    {s : Ledger} {f t a : Int} {res : TransferTxResult} {s' : Ledger}
    (hok : transferTx fault rb s f t a = (Except.ok res, s')) :
    transferTxUnit fault f t a s = Except.ok (res, s') := by
  unfold transferTx execTx at hok
  split at hok
  · rename_i p heq
    injection hok with h1 h2
    injection h1 with h1'
    rw [heq, ← h1', ← h2]
  · split at hok
    · injection hok with h1 h2
      cases h1
    · injection hok with h1 h2
      cases h1

/-- Full characterization of a successful `transferTx`: both balance
changes, preservation of all other balances, the three inserted records,
the logged update order, and the returned result. -/
theorem transferTx_ok_spec {fault : Option TxStep} {rb : Option EngineError}
    {s : Ledger} {f t a : Int} {res : TransferTxResult} {s' : Ledger}
    {bf bt : Int} (hne : f ≠ t)
    (hbf : getBalance s f = some bf) (hbt : getBalance s t = some bt)
    (hok : transferTx fault rb s f t a = (Except.ok res, s')) :
    getBalance s' f = some (bf - a) ∧
    getBalance s' t = some (bt + a) ∧
    (∀ x, x ≠ f → x ≠ t → getBalance s' x = getBalance s x) ∧
    s'.transfers = s.transfers ++ [⟨f, t, a⟩] ∧
    s'.entries = s.entries ++ [⟨f, -a⟩, ⟨t, a⟩] ∧
    s'.log = s.log ++ [(balanceUpdates f t a).1, (balanceUpdates f t a).2] ∧
    res.transfer = ⟨f, t, a⟩ ∧ res.fromEntry = ⟨f, -a⟩ ∧ res.toEntry = ⟨t, a⟩ ∧
    res.fromAccount.id = f ∧ res.fromAccount.balance = bf - a ∧
    res.toAccount.id = t ∧ res.toAccount.balance = bt + a := by
  have hu := transferTx_ok_unit hok
  obtain ⟨s3, accs, hacc, hlog, htr, hent, happ, hrt, hrf, hrtE, hrFA, hrTA⟩ :=
    transferTxUnit_ok hu
  obtain ⟨sMid, hu1, hu2⟩ := applyTwoUpdates_ok happ
  by_cases hft : f < t
  · simp only [balanceUpdates, if_pos hft] at hu1 hu2 ⊢
    have hbf3 : getBalance s3 f = some bf := by
      rw [getBalance_eq_of_accounts hacc]; exact hbf
    obtain ⟨hid1, hbal1, hself1, hoth1, hent1, htr1, hlog1⟩ :=
      updateAccountBalance_ok_spec hbf3 hu1
    have hbtMid : getBalance sMid t = some bt := by
      rw [hoth1 t (Ne.symm hne), getBalance_eq_of_accounts hacc]; exact hbt
    obtain ⟨hid2, hbal2, hself2, hoth2, hent2, htr2, hlog2⟩ :=
      updateAccountBalance_ok_spec hbtMid hu2
    refine ⟨?_, hself2, ?_, ?_, ?_, ?_, hrt, hrf, hrtE, ?_, ?_, ?_, ?_⟩
    · rw [hoth2 f hne, hself1]
      simp [sub_eq_add_neg]
    · intro x hxf hxt
      rw [hoth2 x hxt, hoth1 x hxf, getBalance_eq_of_accounts hacc]
    · rw [htr2, htr1, htr]
    · rw [hent2, hent1, hent]
    · rw [hlog2, hlog1, hlog]
      simp
    · rw [hrFA, if_pos hft]
      exact hid1
    · rw [hrFA, if_pos hft, hbal1]
      ring
    · rw [hrTA, if_pos hft]
      exact hid2
    · rw [hrTA, if_pos hft, hbal2]
  · simp only [balanceUpdates, if_neg hft] at hu1 hu2 ⊢
    have hbt3 : getBalance s3 t = some bt := by
      rw [getBalance_eq_of_accounts hacc]; exact hbt
    obtain ⟨hid1, hbal1, hself1, hoth1, hent1, htr1, hlog1⟩ :=
      updateAccountBalance_ok_spec hbt3 hu1
    have hbfMid : getBalance sMid f = some bf := by
      rw [hoth1 f hne, getBalance_eq_of_accounts hacc]; exact hbf
    obtain ⟨hid2, hbal2, hself2, hoth2, hent2, htr2, hlog2⟩ :=
      updateAccountBalance_ok_spec hbfMid hu2
    refine ⟨?_, ?_, ?_, ?_, ?_, ?_, hrt, hrf, hrtE, ?_, ?_, ?_, ?_⟩
    · rw [hself2]
      simp [sub_eq_add_neg]
    · rw [hoth2 t (Ne.symm hne), hself1]
    · intro x hxf hxt
      rw [hoth2 x hxf, hoth1 x hxt, getBalance_eq_of_accounts hacc]
    · rw [htr2, htr1, htr]
    · rw [hent2, hent1, hent]
    · rw [hlog2, hlog1, hlog]
      simp
    · rw [hrFA, if_neg hft]
      exact hid2
    · rw [hrFA, if_neg hft, hbal2]
      ring
    · rw [hrTA, if_neg hft]
      exact hid1
    · rw [hrTA, if_neg hft, hbal1]

/-- A failed `transferTx` leaves the store exactly as it was (the
Executor's rollback). -/
theorem transferTx_error_state {fault : Option TxStep} {rb : Option EngineError}
    {s : Ledger} {f t a : Int} {e : EngineError}
    (herr : (transferTx fault rb s f t a).1 = Except.error e) :
    (transferTx fault rb s f t a).2 = s := by
  unfold transferTx execTx at herr ⊢
  cases hu : transferTxUnit fault f t a s with
  | ok p =>
    rw [hu] at herr
    cases herr
  | error e' =>
    cases rb <;> rfl

/-- A successful transfer presupposes that both accounts exist. -/
theorem transferTx_ok_exists {fault : Option TxStep} {rb : Option EngineError}
    {s : Ledger} {f t a : Int} {res : TransferTxResult} {s' : Ledger}
    (hne : f ≠ t)
    (hok : transferTx fault rb s f t a = (Except.ok res, s')) :
    ∃ bf bt, getBalance s f = some bf ∧ getBalance s t = some bt := by
  have hu := transferTx_ok_unit hok
  obtain ⟨s3, accs, hacc, hlog, htr, hent, happ, _⟩ := transferTxUnit_ok hu
  obtain ⟨sMid, hu1, hu2⟩ := applyTwoUpdates_ok happ
  by_cases hft : f < t
  · simp only [balanceUpdates, if_pos hft] at hu1 hu2
    obtain ⟨bf, h1⟩ := updateAccountBalance_ok_exists hu1
    obtain ⟨_, _, _, hoth1, _⟩ := updateAccountBalance_ok_spec h1 hu1
    obtain ⟨bt, h2⟩ := updateAccountBalance_ok_exists hu2
    rw [hoth1 t (Ne.symm hne)] at h2
    refine ⟨bf, bt, ?_, ?_⟩
    · rw [← getBalance_eq_of_accounts hacc]; exact h1
    · rw [← getBalance_eq_of_accounts hacc]; exact h2
  · simp only [balanceUpdates, if_neg hft] at hu1 hu2
    obtain ⟨bt, h1⟩ := updateAccountBalance_ok_exists hu1
    obtain ⟨_, _, _, hoth1, _⟩ := updateAccountBalance_ok_spec h1 hu1
    obtain ⟨bf, h2⟩ := updateAccountBalance_ok_exists hu2
    rw [hoth1 f hne] at h2
    refine ⟨bf, bt, ?_, ?_⟩
    · rw [← getBalance_eq_of_accounts hacc]; exact h2
    · rw [← getBalance_eq_of_accounts hacc]; exact h1

end Engine

namespace Engine

/-- C1: for every successful Transfer with distinct accounts and positive
amount, the source balance decreases by exactly the amount, the
destination balance increases by exactly the amount, and the sum of the
two balances is unchanged. -/
theorem transfer_balance_conservation (fault : Option TxStep)
    (rb : Option EngineError) (s : Ledger) (f t a : Int)
    (res : TransferTxResult) (s' : Ledger) (bf bt : Int)
    (hne : f ≠ t) (hpos : 0 < a)
    (hbf : getBalance s f = some bf) (hbt : getBalance s t = some bt)
    (hok : transferTx fault rb s f t a = (Except.ok res, s')) :
    getBalance s' f = some (bf - a) ∧ getBalance s' t = some (bt + a) ∧
    (bf - a) + (bt + a) = bf + bt := by
  obtain ⟨h1, h2, _⟩ := transferTx_ok_spec hne hbf hbt hok
  exact ⟨h1, h2, by ring⟩

/-- Witness for C1: transferring 30 from account 1 (balance 100) to
account 2 (balance 50) of the sample ledger. -/
theorem transfer_balance_conservation_witness :
    getBalance sampleLedgerAfter 1 = some (100 - 30) ∧
    getBalance sampleLedgerAfter 2 = some (50 + 30) ∧
    ((100 : Int) - 30) + (50 + 30) = 100 + 50 :=
  transfer_balance_conservation none none sampleLedger 1 2 30 sampleResult
    sampleLedgerAfter 100 50 (by decide) (by decide) rfl rfl rfl

/-- C2: a Transfer call is atomic — when any step fails, the call returns
an error and the resulting store is exactly the one before the call (no
transfer record, entry or balance change is observable); when it
succeeds, all four writes take effect (the transfer record, both entries,
and, per the update log, both balance updates). -/
theorem transfer_atomicity (fault : Option TxStep) (rb : Option EngineError)
    (s : Ledger) (f t a : Int) (hne : f ≠ t) :
    (∀ e, (transferTx fault rb s f t a).1 = Except.error e →
      (transferTx fault rb s f t a).2 = s) ∧
    (∀ res s', transferTx fault rb s f t a = (Except.ok res, s') →
      s'.transfers = s.transfers ++ [⟨f, t, a⟩] ∧
      s'.entries = s.entries ++ [⟨f, -a⟩, ⟨t, a⟩] ∧
      s'.log = s.log ++ [(balanceUpdates f t a).1, (balanceUpdates f t a).2]) := by
  constructor
  · intro e herr
    exact transferTx_error_state herr
  · intro res s' hok
    obtain ⟨bf, bt, hbf, hbt⟩ := transferTx_ok_exists hne hok
    obtain ⟨_, _, _, htr, hent, hlog, _⟩ := transferTx_ok_spec hne hbf hbt hok
    exact ⟨htr, hent, hlog⟩

/-- Witness for C2: a fault on the second balance update rolls everything
back on the sample ledger; the fault-free run performs all four writes. -/
theorem transfer_atomicity_witness :
    (transferTx (some TxStep.updateSecond) none sampleLedger 1 2 30).2 = sampleLedger ∧
    (sampleLedgerAfter.transfers = sampleLedger.transfers ++ [⟨1, 2, 30⟩] ∧
     sampleLedgerAfter.entries = sampleLedger.entries ++ [⟨1, -30⟩, ⟨2, 30⟩] ∧
     sampleLedgerAfter.log = sampleLedger.log ++
       [(balanceUpdates 1 2 30).1, (balanceUpdates 1 2 30).2]) :=
  ⟨(transfer_atomicity (some TxStep.updateSecond) none sampleLedger 1 2 30
      (by decide)).1 EngineError.storeUnavailable rfl,
   (transfer_atomicity none none sampleLedger 1 2 30 (by decide)).2
      sampleResult sampleLedgerAfter rfl⟩

/-- C3: the two balance updates of every Transfer call are issued in
ascending account-identifier order — the smaller identifier first —
regardless of which account is the source: the update pair computed by the
engine has the smaller identifier first, and a completed call appends
exactly that pair, in that order, to the store's update log. -/
theorem transfer_update_order (fault : Option TxStep) (rb : Option EngineError)
    (s : Ledger) (f t a : Int) (hne : f ≠ t) :
    ((balanceUpdates f t a).1.1 = min f t ∧ (balanceUpdates f t a).2.1 = max f t) ∧
    (∀ res s', transferTx fault rb s f t a = (Except.ok res, s') →
      s'.log = s.log ++ [(balanceUpdates f t a).1, (balanceUpdates f t a).2]) := by
  constructor
  · by_cases hft : f < t
    · simp only [balanceUpdates, if_pos hft]
      exact ⟨(min_eq_left hft.le).symm, (max_eq_right hft.le).symm⟩
    · have htf : t < f := lt_of_le_of_ne (not_lt.mp hft) (Ne.symm hne)
      simp only [balanceUpdates, if_neg hft]
      exact ⟨(min_eq_right htf.le).symm, (max_eq_left htf.le).symm⟩
  · intro res s' hok
    obtain ⟨bf, bt, hbf, hbt⟩ := transferTx_ok_exists hne hok
    obtain ⟨_, _, _, _, _, hlog, _⟩ := transferTx_ok_spec hne hbf hbt hok
    exact hlog

/-- Witness for C3: the reverse-direction transfer 2 → 1 still updates
account 1 (the smaller identifier) first. -/
theorem transfer_update_order_witness :
    ((balanceUpdates 2 1 30).1.1 = min 2 1 ∧ (balanceUpdates 2 1 30).2.1 = max 2 1) ∧
    ({ accounts := [⟨1, "alice", "USD", 130⟩, ⟨2, "bob", "USD", 20⟩],
       entries := [⟨2, -30⟩, ⟨1, 30⟩], transfers := [⟨2, 1, 30⟩],
       log := [(1, 30), (2, -30)] } : Ledger).log = sampleLedger.log ++
         [(balanceUpdates 2 1 30).1, (balanceUpdates 2 1 30).2] :=
  ⟨(transfer_update_order none none sampleLedger 2 1 30 (by decide)).1,
   (transfer_update_order none none sampleLedger 2 1 30 (by decide)).2
     { transfer := ⟨2, 1, 30⟩, fromEntry := ⟨2, -30⟩, toEntry := ⟨1, 30⟩,
       fromAccount := ⟨2, "bob", "USD", 20⟩, toAccount := ⟨1, "alice", "USD", 130⟩ }
     { accounts := [⟨1, "alice", "USD", 130⟩, ⟨2, "bob", "USD", 20⟩],
       entries := [⟨2, -30⟩, ⟨1, 30⟩], transfers := [⟨2, 1, 30⟩],
       log := [(1, 30), (2, -30)] } rfl⟩

/-- C5: every successful Transfer call creates exactly one Transfer
record, exactly one debit Entry for the source with amount `-amount` and
one credit Entry for the destination with amount `+amount`, and returns
them together with the two post-update accounts. -/
theorem transfer_creates_records (fault : Option TxStep)
    (rb : Option EngineError) (s : Ledger) (f t a : Int)
    (res : TransferTxResult) (s' : Ledger) (bf bt : Int)
    (hne : f ≠ t) (hbf : getBalance s f = some bf)
    (hbt : getBalance s t = some bt)
    (hok : transferTx fault rb s f t a = (Except.ok res, s')) :
    s'.transfers = s.transfers ++ [res.transfer] ∧
    s'.entries = s.entries ++ [res.fromEntry, res.toEntry] ∧
    res.transfer = ⟨f, t, a⟩ ∧
    res.fromEntry = ⟨f, -a⟩ ∧ res.toEntry = ⟨t, a⟩ ∧
    res.fromAccount.id = f ∧ res.fromAccount.balance = bf - a ∧
    res.toAccount.id = t ∧ res.toAccount.balance = bt + a := by
  obtain ⟨_, _, _, htr, hent, _, hrt, hrf, hrtE, hfid, hfbal, htid, htbal⟩ :=
    transferTx_ok_spec hne hbf hbt hok
  refine ⟨?_, ?_, hrt, hrf, hrtE, hfid, hfbal, htid, htbal⟩
  · rw [htr, hrt]
  · rw [hent, hrf, hrtE]

/-- Witness for C5: the record counts and amounts of the sample transfer
of 30 from account 1 to account 2. -/
theorem transfer_creates_records_witness :
    sampleLedgerAfter.transfers = sampleLedger.transfers ++ [sampleResult.transfer] ∧
    sampleLedgerAfter.entries = sampleLedger.entries ++
      [sampleResult.fromEntry, sampleResult.toEntry] ∧
    sampleResult.transfer = ⟨1, 2, 30⟩ ∧
    sampleResult.fromEntry = ⟨1, -30⟩ ∧ sampleResult.toEntry = ⟨2, 30⟩ ∧
    sampleResult.fromAccount.id = 1 ∧ sampleResult.fromAccount.balance = 100 - 30 ∧
    sampleResult.toAccount.id = 2 ∧ sampleResult.toAccount.balance = 50 + 30 :=
  transfer_creates_records none none sampleLedger 1 2 30 sampleResult
    sampleLedgerAfter 100 50 (by decide) rfl rfl rfl

/-- C6: the Transactional Executor commits and returns the unit's result
when the unit returns no error; on an error it rolls back (the store is
as before) and surfaces the original error unchanged, except that when
the rollback itself also fails both errors are reported as a single
combined error. -/
theorem execTx_contract {α : Type} (s : Ledger) (rb : Option EngineError)
    (unit : Ledger → Except EngineError (α × Ledger)) :
    (∀ p, unit s = Except.ok p → execTx s rb unit = (Except.ok p.1, p.2)) ∧
    (∀ e, unit s = Except.error e → rb = none →
      execTx s rb unit = (Except.error e, s)) ∧
    (∀ e r, unit s = Except.error e → rb = some r →
      execTx s rb unit = (Except.error (EngineError.combined e r), s)) := by
  refine ⟨?_, ?_, ?_⟩
  · intro p h
    unfold execTx
    rw [h]
  · intro e h hrb
    unfold execTx
    rw [h, hrb]
  · intro e r h hrb
    unfold execTx
    rw [h, hrb]

/-- Witness for C6: the three executor outcomes on concrete units of
work over the sample ledger. -/
theorem execTx_contract_witness :
    execTx sampleLedger none (fun s2 => Except.ok ((0 : Nat), s2)) =
      (Except.ok ((0 : Nat), sampleLedger).1, ((0 : Nat), sampleLedger).2) ∧
    execTx sampleLedger none
      (fun _ => (Except.error EngineError.storeUnavailable :
        Except EngineError (Nat × Ledger))) =
      (Except.error EngineError.storeUnavailable, sampleLedger) ∧
    execTx sampleLedger (some EngineError.notFound)
      (fun _ => (Except.error EngineError.storeUnavailable :
        Except EngineError (Nat × Ledger))) =
      (Except.error (EngineError.combined EngineError.storeUnavailable
        EngineError.notFound), sampleLedger) :=
  ⟨(execTx_contract sampleLedger none (fun s2 => Except.ok ((0 : Nat), s2))).1
      ((0 : Nat), sampleLedger) rfl,
   (execTx_contract sampleLedger none
      (fun _ => (Except.error EngineError.storeUnavailable :
        Except EngineError (Nat × Ledger)))).2.1 EngineError.storeUnavailable rfl rfl,
   (execTx_contract sampleLedger (some EngineError.notFound)
      (fun _ => (Except.error EngineError.storeUnavailable :
        Except EngineError (Nat × Ledger)))).2.2 EngineError.storeUnavailable
      EngineError.notFound rfl rfl⟩

/-- C7 counterexample: the claim that a transfer whose amount exceeds the
source balance does not leave the source negative fails on the modelled
engine. On a ledger where account 1 holds 5, transferring 10 succeeds and
leaves account 1 at balance -5. -/
theorem transfer_overdraft_counterexample :
    ((5 : Int) < 10) ∧
    (transferTx none none overdraftLedger 1 2 10).1 =
      Except.ok { transfer := ⟨1, 2, 10⟩, fromEntry := ⟨1, -10⟩, toEntry := ⟨2, 10⟩,
                  fromAccount := ⟨1, "alice", "USD", -5⟩,
                  toAccount := ⟨2, "bob", "USD", 10⟩ } ∧
    getBalance (transferTx none none overdraftLedger 1 2 10).2 1 = some (-5) ∧
    ((-5 : Int) < 0) :=
  ⟨by decide, rfl, rfl, by decide⟩

/-- C7 amended: the modelled balance-update logic applies the signed delta
unconditionally, so a transfer whose amount exceeds the source balance
succeeds and leaves the source account with the negative balance
`balance - amount`. -/
theorem transfer_overdraft_negative_balance (fault : Option TxStep)
    (rb : Option EngineError) (s : Ledger) (f t a : Int)
    (res : TransferTxResult) (s' : Ledger) (bf : Int)
    (hne : f ≠ t) (hlt : bf < a) (hbf : getBalance s f = some bf)
    (hok : transferTx fault rb s f t a = (Except.ok res, s')) :
    getBalance s' f = some (bf - a) ∧ bf - a < 0 := by
  obtain ⟨bf', bt, hbf', hbt⟩ := transferTx_ok_exists hne hok
  rw [hbf] at hbf'
  obtain rfl : bf' = bf := by injection hbf' with h; exact h.symm
  obtain ⟨h1, _⟩ := transferTx_ok_spec hne hbf hbt hok
  exact ⟨h1, by omega⟩

/-- Witness for C7 amended: the overdraft transfer of 10 from balance 5
leaves balance -5. -/
theorem transfer_overdraft_negative_balance_witness :
    getBalance
      ({ accounts := [⟨1, "alice", "USD", -5⟩, ⟨2, "bob", "USD", 10⟩],
         entries := [⟨1, -10⟩, ⟨2, 10⟩], transfers := [⟨1, 2, 10⟩],
         log := [(1, -10), (2, 10)] } : Ledger) 1 = some (5 - 10) ∧
    (5 : Int) - 10 < 0 :=
  transfer_overdraft_negative_balance none none overdraftLedger 1 2 10
    { transfer := ⟨1, 2, 10⟩, fromEntry := ⟨1, -10⟩, toEntry := ⟨2, 10⟩,
      fromAccount := ⟨1, "alice", "USD", -5⟩, toAccount := ⟨2, "bob", "USD", 10⟩ }
    { accounts := [⟨1, "alice", "USD", -5⟩, ⟨2, "bob", "USD", 10⟩],
      entries := [⟨1, -10⟩, ⟨2, 10⟩], transfers := [⟨1, 2, 10⟩],
      log := [(1, -10), (2, 10)] } 5
    (by decide) (by decide) rfl rfl

end Engine

/-- C8: `IsCurrencySupported c` returns true exactly when `c` is one of
"USD", "EUR", "CAD", and false for every other string. -/
theorem isCurrencySupported_iff (c : String) :
    Utils.IsCurrencySupported c = true ↔ c = "USD" ∨ c = "EUR" ∨ c = "CAD" := by
  simp [Utils.IsCurrencySupported, Utils.USD, Utils.EUR, Utils.CAD, or_assoc]

namespace Api

/-- C9: the API layer maps store errors to transport responses: a
no-rows error in `getAccount` yields 404; a uniqueness or foreign-key
constraint violation in `createAccount` yields 403; any other store error
in these handlers yields 500. -/
theorem api_error_mapping (u currency : String) (e : StoreError)
    (codeName : String)
    (store : CreateAccountParams → Except StoreError Account) :
    (getAccount true (Except.error StoreError.sqlErrNoRows) u = ⟨404, none⟩) ∧
    (e ≠ StoreError.sqlErrNoRows →
      getAccount true (Except.error e) u = ⟨500, none⟩) ∧
    ((codeName = "foreign_key_violation" ∨ codeName = "unique_violation") →
      store ⟨u, currency, 0⟩ = Except.error (StoreError.pqError codeName) →
      createAccount (some currency) u store = ⟨403, none⟩) ∧
    (∀ e2, store ⟨u, currency, 0⟩ = Except.error e2 →
      (∀ cn, e2 = StoreError.pqError cn →
        cn ≠ "foreign_key_violation" ∧ cn ≠ "unique_violation") →
      createAccount (some currency) u store = ⟨500, none⟩) := by
  refine ⟨rfl, ?_, ?_, ?_⟩
  · intro hne
    simp [getAccount, hne]
  · intro hcode hstore
    rcases hcode with h | h <;> simp [createAccount, hstore, h]
  · intro e2 hstore hnotpq
    cases e2 with
    | sqlErrNoRows => simp [createAccount, hstore]
    | other => simp [createAccount, hstore]
    | pqError cn =>
      obtain ⟨h1, h2⟩ := hnotpq cn rfl
      simp [createAccount, hstore, h1, h2]

/-- Witness for C9: concrete stores reporting no rows, a uniqueness
violation, and a connectivity error. -/
theorem api_error_mapping_witness :
    (getAccount true (Except.error StoreError.sqlErrNoRows) "alice" = ⟨404, none⟩) ∧
    (getAccount true (Except.error StoreError.other) "alice" = ⟨500, none⟩) ∧
    (createAccount (some "USD") "alice"
      (fun _ => Except.error (StoreError.pqError "unique_violation")) = ⟨403, none⟩) ∧
    (createAccount (some "USD") "alice"
      (fun _ => Except.error StoreError.other) = ⟨500, none⟩) := by
  have h := api_error_mapping "alice" "USD" StoreError.other "unique_violation"
    (fun _ => Except.error (StoreError.pqError "unique_violation"))
  have h2 := api_error_mapping "alice" "USD" StoreError.other "unique_violation"
    (fun _ => Except.error StoreError.other)
  exact ⟨h.1, h.2.1 (by decide), h.2.2.1 (Or.inr rfl) rfl,
    h2.2.2.2 StoreError.other rfl (fun cn hcn => by cases hcn)⟩

/-- C10: the account read endpoints never expose another user's account:
`getAccount` returns an account only with status 200 and only when its
owner is the authenticated username, returns 400 without the account when
the owner differs, and `listAccounts` consults the store only at query
parameters whose owner is the authenticated username. -/
theorem account_owner_isolation (bindOk : Bool)
    (sr : Except StoreError Account) (u : String) (b : Option (Int × Int))
    (s1 s2 : ListAccountsParams → Except StoreError (List Account)) :
    (∀ st acc, getAccount bindOk sr u = ⟨st, some acc⟩ →
      acc.owner = u ∧ st = 200) ∧
    (∀ acc, sr = Except.ok acc → acc.owner ≠ u →
      getAccount bindOk sr u = ⟨400, none⟩) ∧
    ((∀ p : ListAccountsParams, p.owner = u → s1 p = s2 p) →
      listAccounts b u s1 = listAccounts b u s2) := by
  refine ⟨?_, ?_, ?_⟩
  · intro st acc h
    unfold getAccount at h
    cases bindOk with
    | false => simp at h
    | true =>
      simp only [Bool.not_true, Bool.false_eq_true, if_false] at h
      cases sr with
      | error e =>
        simp only [] at h
        split at h <;> simp at h
      | ok acc2 =>
        simp only [] at h
        split at h
        · simp at h
        · rename_i ho
          injection h with h1 h2
          injection h2 with h3
          exact ⟨h3 ▸ not_not.mp ho, h1.symm⟩
  · intro acc hsr ho
    subst hsr
    simp [getAccount, ho]
  · intro hagree
    unfold listAccounts
    cases b with
    | none => rfl
    | some pq =>
      obtain ⟨pid, psz⟩ := pq
      simp only
      rw [hagree ⟨u, psz, (pid - 1) * psz⟩ rfl]

/-- Witness for C10: a store result owned by someone else is turned into a
400 response without the account, and a successful fetch carries the
requester's own account; the listing is insensitive to what the store
would return for other owners. -/
theorem account_owner_isolation_witness :
    (({ id := 7, owner := "alice", currency := "USD", balance := 0 } : Account).owner
        = "alice" ∧ (200 : Nat) = 200) ∧
    getAccount true (Except.ok ⟨7, "mallory", "USD", 0⟩) "alice" = ⟨400, none⟩ ∧
    listAccounts (some (1, 5)) "alice"
      (fun p => if p.owner = "alice" then Except.ok [] else Except.error StoreError.other) =
    listAccounts (some (1, 5)) "alice" (fun _ => Except.ok []) := by
  have h := account_owner_isolation true
    (Except.ok ⟨7, "alice", "USD", 0⟩) "alice" (some (1, 5))
    (fun p => if p.owner = "alice" then Except.ok [] else Except.error StoreError.other)
    (fun _ => Except.ok [])
  have h2 := account_owner_isolation true
    (Except.ok ⟨7, "mallory", "USD", 0⟩) "alice" (some (1, 5))
    (fun p => if p.owner = "alice" then Except.ok [] else Except.error StoreError.other)
    (fun _ => Except.ok [])
  refine ⟨h.1 200 ⟨7, "alice", "USD", 0⟩ rfl, ?_, ?_⟩
  · exact h2.2.1 ⟨7, "mallory", "USD", 0⟩ rfl (by decide)
  · exact h.2.2 (fun p hp => by rw [if_pos hp])

end Api

namespace Concurrent

/-- Reading back the just-set progress counter. -/
theorem getD_set_self {l : List Nat} {i : Nat} (h : i < l.length) (v : Nat) :
    (l.set i v).getD i 0 = v := by
  rw [List.getD_eq_getElem?_getD, List.getElem?_set_self']
  simp [List.getElem?_eq_getElem h]

/-- Setting one progress counter leaves the others unchanged. -/
theorem getD_set_ne {l : List Nat} {i j : Nat} (h : i ≠ j) (v : Nat) :
    (l.set i v).getD j 0 = l.getD j 0 := by
  rw [List.getD_eq_getElem?_getD, List.getD_eq_getElem?_getD,
    List.getElem?_set_ne h]

/-- An in-range progress counter is a member of the list. -/
theorem getD_mem {l : List Nat} {i : Nat} (h : i < l.length) :
    l.getD i 0 ∈ l := by
  rw [List.getD_eq_getElem?_getD, List.getElem?_eq_getElem h]
  exact List.getElem_mem h

/-- A replicated-zero progress list reads zero everywhere. -/
theorem getD_replicate (n i : Nat) : (List.replicate n 0).getD i 0 = 0 := by
  rw [List.getD_eq_getElem?_getD, List.getElem?_replicate]
  split <;> rfl

/-- Effect of bumping one progress counter on an applied-delta sum. -/
theorem appliedSum_set (f : Tx → Int) (k : Nat) :
    ∀ (pcs : List Nat) (txs : List Tx) (i : Nat) (v : Nat),
      i < pcs.length → pcs.length = txs.length →
      appliedSum f k (pcs.set i v) txs =
        appliedSum f k pcs txs
        + (if k ≤ v then f (txs.getD i ⟨true, 0⟩) else 0)
        - (if k ≤ pcs.getD i 0 then f (txs.getD i ⟨true, 0⟩) else 0)
  | [], _, i, v, hi, _ => by simp at hi
  | pc :: pcs, [], i, v, _, hlen => by simp at hlen
  | pc :: pcs, t :: ts, 0, v, _, _ => by
    simp only [List.set, appliedSum, List.getD_cons_zero]
    ring
  | pc :: pcs, t :: ts, j + 1, v, hi, hlen => by
    simp only [List.set, appliedSum, List.getD_cons_succ]
    rw [appliedSum_set f k pcs ts j v (by simpa using hi) (by simpa using hlen)]
    ring

/-- When every transaction has committed, the applied sum is the full net
effect. -/
theorem appliedSum_all3 (f : Tx → Int) (k : Nat) (hk3 : k ≤ 3) :
    ∀ (pcs : List Nat) (txs : List Tx), pcs.length = txs.length →
      (∀ p ∈ pcs, p = 3) → appliedSum f k pcs txs = total f txs
  | [], [], _, _ => by simp [appliedSum, total]
  | [], t :: ts, hlen, _ => by simp at hlen
  | pc :: pcs, [], hlen, _ => by simp at hlen
  | pc :: pcs, t :: ts, hlen, hall => by
    have hpc : pc = 3 := hall pc (by simp)
    have hrest : ∀ p ∈ pcs, p = 3 := fun p hp => hall p (by simp [hp])
    simp only [appliedSum, hpc, if_pos hk3]
    rw [appliedSum_all3 f k hk3 pcs ts (by simpa using hlen) hrest]
    rfl

/-- Before any transaction starts, nothing is applied. -/
theorem appliedSum_zero (f : Tx → Int) (k : Nat) (hk : 1 ≤ k) :
    ∀ (n : Nat) (txs : List Tx),
      appliedSum f k (List.replicate n 0) txs = 0
  | 0, _ => by cases txs' : ([] : List Tx) <;> simp [appliedSum]
  | n + 1, [] => by simp [List.replicate, appliedSum]
  | n + 1, t :: ts => by
    simp only [List.replicate, appliedSum]
    rw [appliedSum_zero f k hk n ts, if_neg (by omega)]
    ring

/-- Effect of bumping one progress counter on the counter sum. -/
theorem pcsSum_set : ∀ (l : List Nat) (i v : Nat), i < l.length →
    pcsSum (l.set i v) + l.getD i 0 = pcsSum l + v
  | [], i, v, hi => by simp at hi
  | p :: ps, 0, v, _ => by
    simp only [List.set, pcsSum, List.getD_cons_zero]
    omega
  | p :: ps, j + 1, v, hi => by
    simp only [List.set, pcsSum, List.getD_cons_succ]
    have := pcsSum_set ps j v (by simpa using hi)
    omega

/-- The counter sum of an in-range configuration is at most the
all-committed total. -/
theorem pcsSum_le : ∀ l : List Nat, (∀ p ∈ l, p ≤ 3) →
    pcsSum l ≤ 3 * l.length
  | [], _ => by simp [pcsSum]
  | p :: ps, hle => by
    have h1 : p ≤ 3 := hle p (by simp)
    have h2 := pcsSum_le ps (fun q hq => hle q (by simp [hq]))
    simp only [pcsSum, List.length_cons]
    omega

/-- The counter sum of an unfinished in-range configuration is strictly
below the all-committed total. -/
theorem pcsSum_lt : ∀ l : List Nat, (∀ p ∈ l, p ≤ 3) →
    (∃ p ∈ l, p ≠ 3) → pcsSum l < 3 * l.length
  | [], _, hex => by simp at hex
  | p :: ps, hle, hex => by
    have hple : p ≤ 3 := hle p (by simp)
    have hpsle : ∀ q ∈ ps, q ≤ 3 := fun q hq => hle q (by simp [hq])
    have hsum := pcsSum_le ps hpsle
    rcases hex with ⟨q, hq, hq3⟩
    rcases List.mem_cons.mp hq with rfl | hq'
    · simp only [pcsSum, List.length_cons]
      omega
    · have := pcsSum_lt ps hpsle ⟨q, hq', hq3⟩
      simp only [pcsSum, List.length_cons]
      omega

/-- The invariant holds in the initial configuration. -/
theorem inv_init (txs : List Tx) (a0 b0 : Int) :
    Inv txs a0 b0 (initConfig txs.length a0 b0) := by
  refine ⟨?_, ?_, ?_, ?_, ?_, ?_, ?_, ?_⟩
  · simp [initConfig]
  · intro p hp
    simp only [initConfig] at hp
    rw [List.mem_replicate] at hp
    omega
  · intro i h
    simp [initConfig] at h
  · intro i hi h12
    simp only [initConfig] at h12
    rw [getD_replicate] at h12
    omega
  · intro i h
    simp [initConfig] at h
  · intro i hi h2
    simp only [initConfig] at h2
    rw [getD_replicate] at h2
    omega
  · simp [initConfig, appliedSum_zero deltaA 1 (by omega)]
  · simp [initConfig, appliedSum_zero deltaB 2 (by omega)]

/-- Every step preserves the invariant. -/
theorem inv_preserved {txs : List Tx} {a0 b0 : Int} {c c' : Config}
    (inv : Inv txs a0 b0 c) (h : Step txs c c') : Inv txs a0 b0 c' := by
  cases h with
  | lockFirst i hi hpc hfree =>
    refine ⟨?_, ?_, ?_, ?_, ?_, ?_, ?_, ?_⟩
    · simpa using inv.len
    · intro p hp
      rcases List.mem_or_eq_of_mem_set hp with hmem | hv
      · exact inv.pcLe p hmem
      · omega
    · intro j hj
      injection hj with hj
      subst hj
      exact ⟨by simpa using hi, Or.inl (getD_set_self hi 1)⟩
    · intro j hjlen hj12
      by_cases hij : i = j
      · rw [hij]
      · rw [getD_set_ne hij 1] at hj12
        have := inv.lockA_unique j (by simpa using hjlen) hj12
        rw [hfree] at this
        cases this
    · intro j hj
      obtain ⟨hjlen, hj2⟩ := inv.lockB_some j hj
      have hij : i ≠ j := by
        intro he
        rw [← he, hpc] at hj2
        cases hj2
      exact ⟨by simpa using hjlen, by rw [getD_set_ne hij 1]; exact hj2⟩
    · intro j hjlen hj2
      by_cases hij : i = j
      · subst hij
        rw [getD_set_self hi 1] at hj2
        cases hj2
      · rw [getD_set_ne hij 1] at hj2
        exact inv.lockB_unique j (by simpa using hjlen) hj2
    · show c.balA + deltaA (txs.getD i ⟨true, 0⟩) =
        a0 + appliedSum deltaA 1 (c.pcs.set i 1) txs
      rw [inv.balA_eq, appliedSum_set deltaA 1 c.pcs txs i 1 hi inv.len, hpc]
      simp
      ring
    · show c.balB = b0 + appliedSum deltaB 2 (c.pcs.set i 1) txs
      rw [inv.balB_eq, appliedSum_set deltaB 2 c.pcs txs i 1 hi inv.len, hpc]
      simp
  | lockSecond i hi hpc hheld hfree =>
    refine ⟨?_, ?_, ?_, ?_, ?_, ?_, ?_, ?_⟩
    · simpa using inv.len
    · intro p hp
      rcases List.mem_or_eq_of_mem_set hp with hmem | hv
      · exact inv.pcLe p hmem
      · omega
    · intro j hj
      rw [hheld] at hj
      injection hj with hj
      subst hj
      exact ⟨by simpa using hi, Or.inr (getD_set_self hi 2)⟩
    · intro j hjlen hj12
      show c.lockA = some j
      by_cases hij : i = j
      · rw [← hij]
        exact hheld
      · rw [getD_set_ne hij 2] at hj12
        exact inv.lockA_unique j (by simpa using hjlen) hj12
    · intro j hj
      injection hj with hj
      subst hj
      exact ⟨by simpa using hi, getD_set_self hi 2⟩
    · intro j hjlen hj2
      by_cases hij : i = j
      · rw [hij]
      · rw [getD_set_ne hij 2] at hj2
        have := inv.lockB_unique j (by simpa using hjlen) hj2
        rw [hfree] at this
        cases this
    · show c.balA = a0 + appliedSum deltaA 1 (c.pcs.set i 2) txs
      rw [inv.balA_eq, appliedSum_set deltaA 1 c.pcs txs i 2 hi inv.len, hpc]
      simp
    · show c.balB + deltaB (txs.getD i ⟨true, 0⟩) =
        b0 + appliedSum deltaB 2 (c.pcs.set i 2) txs
      rw [inv.balB_eq, appliedSum_set deltaB 2 c.pcs txs i 2 hi inv.len, hpc]
      simp
      ring
  | commit i hi hpc hheldA hheldB =>
    refine ⟨?_, ?_, ?_, ?_, ?_, ?_, ?_, ?_⟩
    · simpa using inv.len
    · intro p hp
      rcases List.mem_or_eq_of_mem_set hp with hmem | hv
      · exact inv.pcLe p hmem
      · omega
    · intro j hj
      cases hj
    · intro j hjlen hj12
      by_cases hij : i = j
      · subst hij
        rw [getD_set_self hi 3] at hj12
        omega
      · rw [getD_set_ne hij 3] at hj12
        have := inv.lockA_unique j (by simpa using hjlen) hj12
        rw [hheldA] at this
        injection this with hji
        exact absurd hji hij
    · intro j hj
      cases hj
    · intro j hjlen hj2
      by_cases hij : i = j
      · subst hij
        rw [getD_set_self hi 3] at hj2
        cases hj2
      · rw [getD_set_ne hij 3] at hj2
        have := inv.lockB_unique j (by simpa using hjlen) hj2
        rw [hheldB] at this
        injection this with hji
        exact absurd hji hij
    · show c.balA = a0 + appliedSum deltaA 1 (c.pcs.set i 3) txs
      rw [inv.balA_eq, appliedSum_set deltaA 1 c.pcs txs i 3 hi inv.len, hpc]
      simp
    · show c.balB = b0 + appliedSum deltaB 2 (c.pcs.set i 3) txs
      rw [inv.balB_eq, appliedSum_set deltaB 2 c.pcs txs i 3 hi inv.len, hpc]
      simp

/-- From any invariant-satisfying configuration that is not fully
committed, some transaction can take a step: there is no deadlock. -/
theorem progress {txs : List Tx} {a0 b0 : Int} {c : Config}
    (inv : Inv txs a0 b0 c) (hnd : ¬ allDone c) : ∃ c', Step txs c c' := by
  unfold allDone at hnd
  push_neg at hnd
  obtain ⟨p, hp, hp3⟩ := hnd
  obtain ⟨i, hi, hpi⟩ := List.mem_iff_getElem.mp hp
  have hgetD : c.pcs.getD i 0 = p := by
    rw [List.getD_eq_getElem?_getD, List.getElem?_eq_getElem hi, hpi]
    rfl
  cases hA : c.lockA with
  | some j =>
    obtain ⟨hjlen, hj12⟩ := inv.lockA_some j hA
    rcases hj12 with h1 | h2
    · have hBfree : c.lockB = none := by
        cases hB : c.lockB with
        | none => rfl
        | some k =>
          obtain ⟨hklen, hk2⟩ := inv.lockB_some k hB
          have := inv.lockA_unique k hklen (Or.inr hk2)
          rw [hA] at this
          injection this with hjk
          rw [← hjk] at hk2
          omega
      exact ⟨_, Step.lockSecond c j hjlen h1 hA hBfree⟩
    · have hB := inv.lockB_unique j hjlen h2
      exact ⟨_, Step.commit c j hjlen h2 hA hB⟩
  | none =>
    have hle : p ≤ 3 := inv.pcLe p hp
    have h12 : ¬(c.pcs.getD i 0 = 1 ∨ c.pcs.getD i 0 = 2) := by
      intro hcon
      have := inv.lockA_unique i hi hcon
      rw [hA] at this
      cases this
    have hp0 : c.pcs.getD i 0 = 0 := by
      rw [hgetD] at h12 ⊢
      omega
    exact ⟨_, Step.lockFirst c i hi hp0 hA⟩

/-- Each step advances exactly one progress counter by one. -/
theorem step_pcsSum {txs : List Tx} {c c' : Config} (h : Step txs c c') :
    pcsSum c'.pcs = pcsSum c.pcs + 1 := by
  cases h with
  | lockFirst i hi hpc hfree =>
    have := pcsSum_set c.pcs i 1 hi
    rw [hpc] at this
    simpa using this
  | lockSecond i hi hpc hheld hfree =>
    have := pcsSum_set c.pcs i 2 hi
    rw [hpc] at this
    show pcsSum (c.pcs.set i 2) = pcsSum c.pcs + 1
    omega
  | commit i hi hpc hheldA hheldB =>
    have := pcsSum_set c.pcs i 3 hi
    rw [hpc] at this
    show pcsSum (c.pcs.set i 3) = pcsSum c.pcs + 1
    omega

/-- The invariant is preserved along any execution. -/
theorem inv_steps {txs : List Tx} {a0 b0 : Int} {c d : Config}
    (inv : Inv txs a0 b0 c)
    (h : Relation.ReflTransGen (Step txs) c d) : Inv txs a0 b0 d := by
  induction h with
  | refl => exact inv
  | tail _ hstep ih => exact inv_preserved ih hstep

/-- Every invariant-satisfying configuration can be driven to a fully
committed one: all transfers complete. -/
theorem completion {txs : List Tx} {a0 b0 : Int} (c : Config)
    (inv : Inv txs a0 b0 c) :
    ∃ d, Relation.ReflTransGen (Step txs) c d ∧ allDone d := by
  by_cases hd : allDone c
  · exact ⟨c, Relation.ReflTransGen.refl, hd⟩
  · obtain ⟨c', hstep⟩ := progress inv hd
    have inv' := inv_preserved inv hstep
    have hdec : 3 * txs.length - pcsSum c'.pcs
        < 3 * txs.length - pcsSum c.pcs := by
      have h1 := step_pcsSum hstep
      have h2 : pcsSum c.pcs < 3 * txs.length := by
        have hex : ∃ p ∈ c.pcs, p ≠ 3 := by
          unfold allDone at hd
          push_neg at hd
          exact hd
        have := pcsSum_lt c.pcs inv.pcLe hex
        rw [inv.len] at this
        exact this
      omega
    obtain ⟨d, hreach, hdone⟩ := completion c' inv'
    exact ⟨d, Relation.ReflTransGen.head hstep hreach, hdone⟩
termination_by 3 * txs.length - pcsSum c.pcs

end Concurrent

namespace Concurrent

/-- C4: for any list of concurrent transfers between the two accounts
(alternating direction or otherwise), from any reachable interleaving
state: an unfinished state always has an enabled step (no deadlock), every
execution can be completed, and every completed state has final balances
equal to the initial balances plus the net of all per-transfer deltas —
independent of the interleaving order. -/
theorem concurrent_transfers_safe (txs : List Tx) (a0 b0 : Int) (c : Config)
    (hreach : Relation.ReflTransGen (Step txs) (initConfig txs.length a0 b0) c) :
    (¬ allDone c → ∃ c', Step txs c c') ∧
    (allDone c →
      c.balA = a0 + total deltaA txs ∧ c.balB = b0 + total deltaB txs) ∧
    (∃ d, Relation.ReflTransGen (Step txs) c d ∧ allDone d ∧
      d.balA = a0 + total deltaA txs ∧ d.balB = b0 + total deltaB txs) := by
  have inv : Inv txs a0 b0 c := inv_steps (inv_init txs a0 b0) hreach
  refine ⟨fun hnd => progress inv hnd, fun hdone => ?_, ?_⟩
  · refine ⟨?_, ?_⟩
    · rw [inv.balA_eq,
        appliedSum_all3 deltaA 1 (by omega) c.pcs txs inv.len hdone]
    · rw [inv.balB_eq,
        appliedSum_all3 deltaB 2 (by omega) c.pcs txs inv.len hdone]
  · obtain ⟨d, hreach', hdone⟩ := completion c inv
    have invd : Inv txs a0 b0 d := inv_steps inv hreach'
    refine ⟨d, hreach', hdone, ?_, ?_⟩
    · rw [invd.balA_eq,
        appliedSum_all3 deltaA 1 (by omega) d.pcs txs invd.len hdone]
    · rw [invd.balB_eq,
        appliedSum_all3 deltaB 2 (by omega) d.pcs txs invd.len hdone]

/-- Witness for C4: two concurrent opposite-direction transfers of 10
each between accounts A and B starting from balances 1000 and 1000, as in
the spec's section 8 scenario. -/
theorem concurrent_transfers_safe_witness :
    (¬ allDone (initConfig 2 1000 1000) →
      ∃ c', Step [⟨true, 10⟩, ⟨false, 10⟩] (initConfig 2 1000 1000) c') ∧
    (allDone (initConfig 2 1000 1000) →
      (initConfig 2 1000 1000).balA =
        1000 + total deltaA [⟨true, 10⟩, ⟨false, 10⟩] ∧
      (initConfig 2 1000 1000).balB =
        1000 + total deltaB [⟨true, 10⟩, ⟨false, 10⟩]) ∧
    (∃ d, Relation.ReflTransGen (Step [⟨true, 10⟩, ⟨false, 10⟩])
        (initConfig 2 1000 1000) d ∧ allDone d ∧
      d.balA = 1000 + total deltaA [⟨true, 10⟩, ⟨false, 10⟩] ∧
      d.balB = 1000 + total deltaB [⟨true, 10⟩, ⟨false, 10⟩]) :=
  concurrent_transfers_safe [⟨true, 10⟩, ⟨false, 10⟩] 1000 1000
    (initConfig 2 1000 1000) Relation.ReflTransGen.refl

end Concurrent
